import Mathlib

/-!
Verification of the `CustomPlayer` adversarial-search agent
(`my_custom_player.py`): a depth-limited alpha-beta minimax searcher over an
abstract game interface, plus a family of static evaluation functions.

Scores in the Python code are floats that mix finite heuristic values with the
sentinels `float("-inf")` / `float("inf")`; every finite value produced by the
evaluators is rational, so scores are embedded as `WithBot (WithTop ℚ)`, with
`⊥` standing for `-inf` and `⊤` for `inf`.
-/

/-- Search scores: rationals extended with the two infinite sentinels. -/
abbrev Score : Type := WithBot (WithTop ℚ)

/-- Embeds a finite (rational) heuristic value into `Score`. -/
def finScore (q : ℚ) : Score := ((q : WithTop ℚ) : WithBot (WithTop ℚ))

/-- The external game-engine interface consumed by the searcher
(`state.actions()`, `state.result(a)`, `state.terminal_test()`,
`state.utility(player_id)`, `state.ply_count`).  States and actions are
opaque to the search code. -/
structure Game (σ α : Type) where
  actions : σ → List α
  result : σ → α → σ
  terminal_test : σ → Bool
  utility : σ → Fin 2 → Score
  ply_count : σ → Nat

/-- The part of a game state read by the evaluator family: per-player
locations (`state.locs`), the liberty list of a location
(`state.liberties(loc)`), and the board value (`state.board`, a Python int
whose decimal string is inspected by `score_build`). -/
structure EvalState where
  locs : Fin 2 → Nat
  liberties : Nat → List Nat
  board : Nat

/-- Number of `'1'` characters in the decimal representation of `n`:
the embedding of Python's `str(n).count('1')` for a non-negative int. -/
def countOnes (n : Nat) : Nat :=
  if h : n = 0 then 0
  else (if n % 10 = 1 then 1 else 0) + countOnes (n / 10)
termination_by n
decreasing_by exact Nat.div_lt_self (Nat.pos_of_ne_zero h) (by norm_num)

/-- Liberty count of player `p` in state `s` (the `len(... liberties ...)`
pattern shared by all evaluators). -/
def libCount (s : EvalState) (p : Fin 2) : Nat :=
  (s.liberties (s.locs p)).length

/-- Embedding of `CustomPlayer.score` (the Basic evaluator):
`len(own_liberties) - len(opp_liberties)` from the perspective of
player id `pid`. -/
def score (s : EvalState) (pid : Fin 2) : ℚ :=
  let own_loc := s.locs pid
  let opp_loc := s.locs (1 - pid)
  let own_liberties := s.liberties own_loc
  let opp_liberties := s.liberties opp_loc
  (own_liberties.length : ℚ) - (opp_liberties.length : ℚ)

/-- Embedding of `CustomPlayer.score_aggressive`:
`1.5 * len(own_liberties) - len(opp_liberties)`. -/
def score_aggressive (s : EvalState) (pid : Fin 2) : ℚ :=
  let own_loc := s.locs pid
  let opp_loc := s.locs (1 - pid)
  let own_liberties := s.liberties own_loc
  let opp_liberties := s.liberties opp_loc
  1.5 * (own_liberties.length : ℚ) - (opp_liberties.length : ℚ)

/-- Embedding of `CustomPlayer.score_central`: the Basic score when the
liberty counts differ, otherwise a centrality tiebreak around the center
`(ceil(11/2), ceil(9/2))`, divided by 10.  Locations are decoded with
`x = loc % 13`, `y = loc // 13`. -/
def score_central (s : EvalState) (pid : Fin 2) : ℚ :=
  let own_loc := s.locs pid
  let opp_loc := s.locs (1 - pid)
  let own_liberties := s.liberties own_loc
  let opp_liberties := s.liberties opp_loc
  if own_liberties.length ≠ opp_liberties.length then
    (own_liberties.length : ℚ) - (opp_liberties.length : ℚ)
  else
    let cen_x : ℚ := ((⌈(11 : ℚ) / 2⌉ : ℤ) : ℚ)
    let cen_y : ℚ := ((⌈(9 : ℚ) / 2⌉ : ℤ) : ℚ)
    let x : ℚ := ((own_loc % 13 : Nat) : ℚ)
    let y : ℚ := ((own_loc / 13 : Nat) : ℚ)
    let opp_x : ℚ := ((opp_loc % 13 : Nat) : ℚ)
    let opp_y : ℚ := ((opp_loc / 13 : Nat) : ℚ)
    let own_centrality := ((11 - cen_x) ^ 2 - (x - cen_x) ^ 2)
      + ((9 - cen_y) ^ 2 - (y - cen_y) ^ 2)
    let opp_centrality := ((11 - cen_x) ^ 2 - (opp_x - cen_x) ^ 2)
      + ((9 - cen_y) ^ 2 - (opp_y - cen_y) ^ 2)
    (own_centrality - opp_centrality) / 10

/-- Embedding of `CustomPlayer.score_build`: the Basic difference with a
phase-dependent multiplier on the opponent's liberties, the phase being
measured by `str(state.board).count('1') / 99`. -/
def score_build (s : EvalState) (pid : Fin 2) : ℚ :=
  let own_loc := s.locs pid
  let opp_loc := s.locs (1 - pid)
  let own_liberties := s.liberties own_loc
  let opp_liberties := s.liberties opp_loc
  let blocks_left : Nat := countOnes s.board
  let blocks_left_percent : ℚ := (blocks_left : ℚ) / 99
  let multiplier : ℚ :=
    if blocks_left_percent > 0.9 then 1.50
    else if blocks_left_percent > 0.7 then 1.75
    else if blocks_left_percent > 0.5 then 2
    else 1
  (own_liberties.length : ℚ) - multiplier * (opp_liberties.length : ℚ)

/-- The multiplier table of `score_build` as a standalone function of the
`blocks_left / 99` fraction. -/
def buildMultiplier (f : ℚ) : ℚ :=
  if f > 0.9 then 1.50
  else if f > 0.7 then 1.75
  else if f > 0.5 then 2
  else 1

/-- The fraction `str(state.board).count('1') / 99` used by `score_build`;
the specification reads it as the fraction of remaining open board cells. -/
def openFraction (s : EvalState) : ℚ := ((countOnes s.board : ℚ)) / 99

section Searcher

variable {σ α : Type} (g : Game σ α)

/-- Embedding of the `for action in state.actions():` loop of
`CustomPlayer.ab_min_value` at a fixed remaining child depth: `f` is the
child evaluator (`ab_max_value` at `depth - 1`), `value` the running
minimum, and `alpha`/`beta` the window (the min layer leaves `alpha`
untouched and shrinks `beta` after each non-cutoff iteration). -/
def abMinLoop (f : σ → Score → Score → Score) (s : σ) :
    List α → Score → Score → Score → Score
  | [], value, _, _ => value
  | a :: rest, value, alpha, beta =>
    let value' := min value (f (g.result s a) alpha beta)
    if value' ≤ alpha then value'
    else abMinLoop f s rest value' alpha (min beta value')

/-- Embedding of the action loop of `CustomPlayer.ab_max_value`: dual to
`abMinLoop`, with a `value ≥ beta` cutoff and `alpha` updates. -/
def abMaxLoop (f : σ → Score → Score → Score) (s : σ) :
    List α → Score → Score → Score → Score
  | [], value, _, _ => value
  | a :: rest, value, alpha, beta =>
    let value' := max value (f (g.result s a) alpha beta)
    if beta ≤ value' then value'
    else abMaxLoop f s rest value' (max alpha value') beta

variable (pid : Fin 2) (ev : σ → Score)

/-- The pair `(ab_min_value, ab_max_value)` at a given depth, built by
recursion on the (natural-number) depth.  Both methods test
`state.terminal_test()` first and `depth <= 0` second; for a `Nat` depth
the cutoff `depth <= 0` holds exactly in the `0` branch, so the depth test
is decided by the pattern match.  At positive depth each layer runs its
action loop with the sentinel initial value and calls the opposite layer
on child states at `depth - 1`. -/
def abMinMax : Nat → (σ → Score → Score → Score) × (σ → Score → Score → Score)
  | 0 =>
    (fun s _ _ => if g.terminal_test s then g.utility s pid else ev s,
     fun s _ _ => if g.terminal_test s then g.utility s pid else ev s)
  | d + 1 =>
    (fun s alpha beta =>
      if g.terminal_test s then g.utility s pid
      else abMinLoop g (abMinMax d).2 s (g.actions s) ⊤ alpha beta,
     fun s alpha beta =>
      if g.terminal_test s then g.utility s pid
      else abMaxLoop g (abMinMax d).1 s (g.actions s) ⊥ alpha beta)

/-- Embedding of `CustomPlayer.ab_min_value state alpha beta depth`. -/
def ab_min_value (s : σ) (alpha beta : Score) (depth : Nat) : Score :=
  (abMinMax g pid ev depth).1 s alpha beta

/-- Embedding of `CustomPlayer.ab_max_value state alpha beta depth`. -/
def ab_max_value (s : σ) (alpha beta : Score) (depth : Nat) : Score :=
  (abMinMax g pid ev depth).2 s alpha beta

/-- Embedding of the root loop of `CustomPlayer.alphabeta`: `f` is the
minimizing layer applied to each child (note the code passes `depth`
unchanged to it), and the loop threads `alpha`, `beta` (never written at
the root), `best_score`, `best_move` and the `scores` list, returning the
final `(best_move, scores)`. -/
def abRootLoop (f : σ → Score → Score → Score) (s : σ) :
    List α → Score → Score → Score → α → List Score → α × List Score
  | [], _, _, _, best_move, scores => (best_move, scores)
  | a :: rest, alpha, beta, best_score, best_move, scores =>
    let v := f (g.result s a) alpha beta
    let alpha' := max alpha v
    let scores' := scores ++ [v]
    if best_score < v then abRootLoop f s rest alpha' beta v a scores'
    else abRootLoop f s rest alpha' beta best_score best_move scores'

/-- Embedding of `CustomPlayer.alphabeta state depth`.  The initial
`best_move = random.choice(state.actions())` draw is threaded explicitly
as the `fb` parameter (the spec's recommended treatment of the implicit
global randomness); `alpha`, `beta` and `best_score` start at the
sentinels. -/
def alphabeta (s : σ) (depth : Nat) (fb : α) : α :=
  (abRootLoop g (abMinMax g pid ev depth).1 s (g.actions s) ⊥ ⊤ ⊥ fb []).1

/-- The `scores` list accumulated by the root loop of `alphabeta`. -/
def rootScores (s : σ) (depth : Nat) (fb : α) : List Score :=
  (abRootLoop g (abMinMax g pid ev depth).1 s (g.actions s) ⊥ ⊤ ⊥ fb []).2

/-- The per-action root values obtained when the minimizing layer is
invoked at child depth `callDepth`, threading the root `alpha` exactly as
the root loop does (`beta` stays `⊤`).  Instantiated at `callDepth =
depth` this is what the code computes; at `callDepth = depth - 1` it is
what the specification's root step describes. -/
def rootValuesGo (f : σ → Score → Score → Score) (s : σ) :
    List α → Score → List Score
  | [], _ => []
  | a :: rest, alpha =>
    let v := f (g.result s a) alpha ⊤
    v :: rootValuesGo f s rest (max alpha v)

/-- List of root values with every minimizing call made at depth
`callDepth`. -/
def rootValuesCalledAt (s : σ) (callDepth : Nat) : List Score :=
  rootValuesGo g (abMinMax g pid ev callDepth).1 s (g.actions s) ⊥

/-- Embedding of `CustomPlayer.get_action`: a uniformly random legal action
(threaded as `r`) while `state.ply_count < 2`, otherwise the alpha-beta
search with the fixed depth bound 4 (`fb` threads the root loop's own
random fallback draw). -/
def get_action (s : σ) (r fb : α) : α :=
  if g.ply_count s < 2 then r else alphabeta g pid ev s 4 fb

/-- Modelled from the spec: the full non-pruning minimax recursion with the
same terminal rule, the same depth-cutoff rule and the same evaluator as
the pruning recursion — the reference point of the spec's alpha-beta
result-equivalence property.  `mmMinFold` folds `min` over the child
values (an empty action list yields the untouched `⊤` sentinel, matching
the pruning code's degenerate case). -/
def mmMinFold (f : σ → Score) (s : σ) : List α → Score
  | [] => ⊤
  | a :: rest => min (f (g.result s a)) (mmMinFold f s rest)

/-- Modelled from the spec: `max` fold of child values for the maximizing
minimax layer (empty list yields `⊥`). -/
def mmMaxFold (f : σ → Score) (s : σ) : List α → Score
  | [] => ⊥
  | a :: rest => max (f (g.result s a)) (mmMaxFold f s rest)

/-- Modelled from the spec: the pair `(minimax_min, minimax_max)` of full
(non-pruning) minimax value functions at a given depth. -/
def minimaxPair : Nat → (σ → Score) × (σ → Score)
  | 0 =>
    (fun s => if g.terminal_test s then g.utility s pid else ev s,
     fun s => if g.terminal_test s then g.utility s pid else ev s)
  | d + 1 =>
    (fun s =>
      if g.terminal_test s then g.utility s pid
      else mmMinFold g (minimaxPair d).2 s (g.actions s),
     fun s =>
      if g.terminal_test s then g.utility s pid
      else mmMaxFold g (minimaxPair d).1 s (g.actions s))

/-- The minimizing layer of full minimax at depth `d`. -/
def minimax_min (s : σ) (d : Nat) : Score := (minimaxPair g pid ev d).1 s

/-- The maximizing layer of full minimax at depth `d`. -/
def minimax_max (s : σ) (d : Nat) : Score := (minimaxPair g pid ev d).2 s

end Searcher

/-- A small concrete game used to exercise the searcher on closed inputs:
states and actions are naturals, `result` moves to the state named by the
action, state `0` has the single action `1`, state `1` the single action
`2`, state `5` the single action `2`, state `9` is the only terminal
state, and `ply_count` of state `n` is `n`. -/
def toyG : Game Nat Nat where
  actions := fun s =>
    if s = 0 then [1] else if s = 1 then [2] else if s = 5 then [2] else []
  result := fun _ a => a
  terminal_test := fun s => s == 9
  utility := fun _ _ => finScore 7
  ply_count := fun s => s

/-- A heuristic evaluator for `toyG`: 5 at state `1`, 3 elsewhere. -/
def toyEv : Nat → Score := fun s => if s = 1 then finScore 5 else finScore 3

/-- The claimed centrality formula of the spec: centrality of a location on
the board decoded as `x = loc mod 13`, `y = loc div 13` equals
`(5.5^2 - (x - 5.5)^2) + (4.5^2 - (y - 4.5)^2)`. -/
def specCentrality (loc : Nat) : ℚ :=
  (5.5 ^ 2 - (((loc % 13 : Nat) : ℚ) - 5.5) ^ 2)
    + (4.5 ^ 2 - (((loc / 13 : Nat) : ℚ) - 4.5) ^ 2)

/-- The centrality formula the code actually computes: center
`(6, 5) = (ceil(11/2), ceil(9/2))` with per-axis reference values
`(11 - 6)^2` and `(9 - 5)^2`. -/
def codeCentrality (loc : Nat) : ℚ :=
  ((11 - 6) ^ 2 - (((loc % 13 : Nat) : ℚ) - 6) ^ 2)
    + ((9 - 5) ^ 2 - (((loc / 13 : Nat) : ℚ) - 5) ^ 2)

/-- Repunit numbers (`repunit k` is the decimal numeral made of `k` one
digits), used as concrete board values with a known `countOnes` count. -/
def repunit : Nat → Nat
  | 0 => 0
  | k + 1 => 10 * repunit k + 1

/-- Fail-soft correctness window: `r` (a pruning result) agrees with `m`
(the true minimax value) inside the window `(a, b)`, is an upper bound on
`m` when it fails low, and a lower bound when it fails high. -/
def FS (r m a b : Score) : Prop :=
  (r ≤ a → m ≤ r) ∧ (b ≤ r → r ≤ m) ∧ (a < r → r < b → r = m)

theorem FS_refl (r a b : Score) : FS r r a b :=
  ⟨fun _ => le_refl r, fun _ => le_refl r, fun _ _ => rfl⟩

theorem FS_eq {r m : Score} (h : FS r m ⊥ ⊤) : r = m := by
  rcases h with ⟨h1, h2, h3⟩
  rcases eq_or_lt_of_le (bot_le : (⊥ : Score) ≤ r) with hb | hb
  · exact le_antisymm (hb ▸ bot_le) (h1 hb.ge)
  · rcases eq_or_lt_of_le (le_top : r ≤ (⊤ : Score)) with ht | ht
    · exact le_antisymm (h2 ht.ge) (ht ▸ le_top)
    · exact h3 hb ht

theorem countOnes_repunit : ∀ k : Nat, countOnes (repunit k) = k := by
  intro k
  induction k with
  | zero => simp [repunit, countOnes]
  | succ k ih =>
    have hne : 10 * repunit k + 1 ≠ 0 := by omega
    have h10 : (10 * repunit k + 1) % 10 = 1 := by omega
    have hdiv : (10 * repunit k + 1) / 10 = repunit k := by omega
    rw [repunit, countOnes, dif_neg hne, hdiv, ih, if_pos h10]
    omega

theorem abMaxLoop_fs {σ α : Type} (g : Game σ α)
    {f : σ → Score → Score → Score} {fm : σ → Score}
    (hf : ∀ s a b, a < b → FS (f s a b) (fm s) a b)
    (s : σ) (b0 : Score) :
    ∀ (as : List α) (v a0 : Score), a0 < b0 → v < b0 →
      v ≤ abMaxLoop g f s as v (max a0 v) b0 ∧
      FS (abMaxLoop g f s as v (max a0 v) b0)
        (max v (mmMaxFold g fm s as)) a0 b0 := by
  intro as
  induction as with
  | nil =>
    intro v a0 hab hvb
    refine ⟨le_refl v, ?_⟩
    show FS v (max v ⊥) a0 b0
    rw [max_eq_left bot_le]
    exact FS_refl v a0 b0
  | cons c rest ih =>
    intro v a0 hab hvb
    have hwin : max a0 v < b0 := max_lt hab hvb
    have hx : FS (f (g.result s c) (max a0 v) b0) (fm (g.result s c))
        (max a0 v) b0 := hf _ _ _ hwin
    set x := f (g.result s c) (max a0 v) b0 with hxdef
    set mc := fm (g.result s c) with hmcdef
    set T := mmMaxFold g fm s rest with hTdef
    set v' := max v x with hv'def
    have hunfold : abMaxLoop g f s (c :: rest) v (max a0 v) b0 =
        if b0 ≤ v' then v' else abMaxLoop g f s rest v' (max (max a0 v) v') b0 := by
      simp only [abMaxLoop, hv'def, hxdef]
    have hfold : max v (mmMaxFold g fm s (c :: rest)) = max v (max mc T) := by
      simp only [mmMaxFold, hmcdef, hTdef]
    rw [hunfold, hfold]
    have hvv' : v ≤ v' := le_max_left v x
    have hxv' : x ≤ v' := le_max_right v x
    by_cases hcut : b0 ≤ v'
    · rw [if_pos hcut]
      refine ⟨hvv', ?_, ?_, ?_⟩
      · intro h
        exact absurd (lt_of_le_of_lt (hcut.trans h) hab) (lt_irrefl b0)
      · intro _
        have hbx : b0 ≤ x := by
          rcases le_max_iff.mp hcut with h | h
          · exact absurd (lt_of_le_of_lt h hvb) (lt_irrefl b0)
          · exact h
        have hxmc : x ≤ mc := hx.2.1 hbx
        exact max_le (le_max_left _ _)
          (hxmc.trans ((le_max_left mc T).trans (le_max_right v _)))
      · intro _ hlt
        exact absurd hcut (not_le.mpr hlt)
    · rw [if_neg hcut]
      have hv'b : v' < b0 := not_le.mp hcut
      have halpha : max (max a0 v) v' = max a0 v' := by
        rw [max_assoc]
        congr 1
        exact max_eq_right (le_max_left v x)
      rw [halpha]
      obtain ⟨hvr, fs'⟩ := ih v' a0 hab hv'b
      have hxb : x < b0 := lt_of_le_of_lt hxv' hv'b
      have hmcx : mc ≤ x := by
        rcases le_or_lt x (max a0 v) with h | h
        · exact hx.1 h
        · exact le_of_eq (hx.2.2 h hxb).symm
      set r := abMaxLoop g f s rest v' (max a0 v') b0 with hrdef
      have hmm' : max v (max mc T) ≤ max v' T := by
        apply max_le (hvv'.trans (le_max_left v' T))
        apply max_le
        · exact (hmcx.trans hxv').trans (le_max_left v' T)
        · exact le_max_right v' T
      refine ⟨hvv'.trans hvr, ?_, ?_, ?_⟩
      · intro h
        exact hmm'.trans (fs'.1 h)
      · intro h
        have hrM : r ≤ max v' T := fs'.2.1 h
        rcases le_max_iff.mp hrM with h' | h'
        · exact absurd (lt_of_le_of_lt h' hv'b) (not_lt.mpr h)
        · exact h'.trans ((le_max_right mc T).trans (le_max_right v _))
      · intro ha hb
        have hr : r = max v' T := fs'.2.2 ha hb
        refine le_antisymm ?_ (hr ▸ hmm')
        rw [hr]
        rcases max_choice v' T with hM | hM
        · rw [hM]
          rcases max_choice v x with hv | hv
          · have hveq : v' = v := hv'def.trans hv
            rw [hveq]
            exact le_max_left v _
          · have hveq : v' = x := hv'def.trans hv
            rcases le_or_lt x v with hxle | hvlt
            · have hxv : x = v := le_antisymm hxle (hv ▸ le_max_left v x)
              rw [hveq, hxv]
              exact le_max_left v _
            · have hax : a0 < x := by
                rw [hr, hM, hveq] at ha
                exact ha
              have hxeq : x = mc := hx.2.2 (max_lt hax hvlt) hxb
              rw [hveq, hxeq]
              exact (le_max_left mc T).trans (le_max_right v _)
        · rw [hM]
          exact (le_max_right mc T).trans (le_max_right v _)

theorem abMinLoop_fs {σ α : Type} (g : Game σ α)
    {f : σ → Score → Score → Score} {fm : σ → Score}
    (hf : ∀ s a b, a < b → FS (f s a b) (fm s) a b)
    (s : σ) (a0 : Score) :
    ∀ (as : List α) (v b0 : Score), a0 < b0 → a0 < v →
      abMinLoop g f s as v a0 (min b0 v) ≤ v ∧
      FS (abMinLoop g f s as v a0 (min b0 v))
        (min v (mmMinFold g fm s as)) a0 b0 := by
  intro as
  induction as with
  | nil =>
    intro v b0 hab hav
    refine ⟨le_refl v, ?_⟩
    show FS v (min v ⊤) a0 b0
    rw [min_eq_left le_top]
    exact FS_refl v a0 b0
  | cons c rest ih =>
    intro v b0 hab hav
    have hwin : a0 < min b0 v := lt_min hab hav
    have hx : FS (f (g.result s c) a0 (min b0 v)) (fm (g.result s c))
        a0 (min b0 v) := hf _ _ _ hwin
    set x := f (g.result s c) a0 (min b0 v) with hxdef
    set mc := fm (g.result s c) with hmcdef
    set T := mmMinFold g fm s rest with hTdef
    set v' := min v x with hv'def
    have hunfold : abMinLoop g f s (c :: rest) v a0 (min b0 v) =
        if v' ≤ a0 then v' else abMinLoop g f s rest v' a0 (min (min b0 v) v') := by
      simp only [abMinLoop, hv'def, hxdef]
    have hfold : min v (mmMinFold g fm s (c :: rest)) = min v (min mc T) := by
      simp only [mmMinFold, hmcdef, hTdef]
    rw [hunfold, hfold]
    have hv'v : v' ≤ v := min_le_left v x
    have hv'x : v' ≤ x := min_le_right v x
    by_cases hcut : v' ≤ a0
    · rw [if_pos hcut]
      refine ⟨hv'v, ?_, ?_, ?_⟩
      · intro _
        have hxa : x ≤ a0 := by
          rcases min_le_iff.mp hcut with h | h
          · exact absurd (lt_of_lt_of_le hav h) (lt_irrefl a0)
          · exact h
        have hmcx : mc ≤ x := hx.1 hxa
        exact le_min (min_le_left v _)
          (((min_le_right v _).trans (min_le_left mc T)).trans hmcx)
      · intro h
        exact absurd (lt_of_le_of_lt (h.trans hcut) hab) (lt_irrefl b0)
      · intro hlt _
        exact absurd hcut (not_le.mpr hlt)
    · rw [if_neg hcut]
      have hv'a : a0 < v' := not_le.mp hcut
      have hbeta : min (min b0 v) v' = min b0 v' := by
        rw [min_assoc]
        congr 1
        exact min_eq_right (min_le_left v x)
      rw [hbeta]
      obtain ⟨hrv, fs'⟩ := ih v' b0 hab hv'a
      have hax : a0 < x := lt_of_lt_of_le hv'a hv'x
      have hxmc : x ≤ mc := by
        rcases le_or_lt (min b0 v) x with h | h
        · exact hx.2.1 h
        · exact le_of_eq (hx.2.2 hax h)
      set r := abMinLoop g f s rest v' a0 (min b0 v') with hrdef
      have hmm' : min v' T ≤ min v (min mc T) := by
        apply le_min ((min_le_left v' T).trans hv'v)
        apply le_min
        · exact (min_le_left v' T).trans (hv'x.trans hxmc)
        · exact min_le_right v' T
      refine ⟨hrv.trans hv'v, ?_, ?_, ?_⟩
      · intro h
        rcases min_le_iff.mp (fs'.1 h) with h' | h'
        · exact absurd (h'.trans h) hcut
        · exact ((min_le_right v _).trans (min_le_right mc T)).trans h'
      · intro h
        have hrM := fs'.2.1 h
        have h1 : r ≤ v' := hrM.trans (min_le_left v' T)
        have h2 : r ≤ T := hrM.trans (min_le_right v' T)
        exact le_min (h1.trans hv'v) (le_min ((h1.trans hv'x).trans hxmc) h2)
      · intro ha hb
        have hr : r = min v' T := fs'.2.2 ha hb
        rw [hr]
        refine le_antisymm hmm' ?_
        rcases min_choice v' T with hM | hM
        · rw [hM]
          rcases min_choice v x with hv | hv
          · have hveq : v' = v := hv'def.trans hv
            rw [hveq]
            exact min_le_left v _
          · have hveq : v' = x := hv'def.trans hv
            rcases le_or_lt v x with hvle | hxlt
            · have hxv : x = v := le_antisymm (hv ▸ min_le_left v x) hvle
              rw [hveq, hxv]
              exact min_le_left v _
            · have hxb : x < b0 := by
                rw [hr, hM, hveq] at hb
                exact hb
              have hxeq : x = mc := hx.2.2 hax (lt_min hxb hxlt)
              rw [hveq, hxeq]
              exact (min_le_right v _).trans (min_le_left mc T)
        · rw [hM]
          exact (min_le_right v _).trans (min_le_right mc T)

theorem ab_fs {σ α : Type} (g : Game σ α) (pid : Fin 2) (ev : σ → Score) :
    ∀ (d : Nat) (s : σ) (a b : Score), a < b →
      FS (ab_min_value g pid ev s a b d) (minimax_min g pid ev s d) a b ∧
      FS (ab_max_value g pid ev s a b d) (minimax_max g pid ev s d) a b := by
  intro d
  induction d with
  | zero =>
    intro s a b hab
    constructor
    · show FS (if g.terminal_test s then g.utility s pid else ev s)
        (if g.terminal_test s then g.utility s pid else ev s) a b
      exact FS_refl _ a b
    · show FS (if g.terminal_test s then g.utility s pid else ev s)
        (if g.terminal_test s then g.utility s pid else ev s) a b
      exact FS_refl _ a b
  | succ d ihd =>
    intro s a b hab
    have hfmin : ∀ s' a' b', a' < b' →
        FS ((abMinMax g pid ev d).1 s' a' b') ((minimaxPair g pid ev d).1 s') a' b' :=
      fun s' a' b' h => (ihd s' a' b' h).1
    have hfmax : ∀ s' a' b', a' < b' →
        FS ((abMinMax g pid ev d).2 s' a' b') ((minimaxPair g pid ev d).2 s') a' b' :=
      fun s' a' b' h => (ihd s' a' b' h).2
    constructor
    · show FS
        (if g.terminal_test s then g.utility s pid
          else abMinLoop g (abMinMax g pid ev d).2 s (g.actions s) ⊤ a b)
        (if g.terminal_test s then g.utility s pid
          else mmMinFold g (minimaxPair g pid ev d).2 s (g.actions s)) a b
      cases ht : g.terminal_test s with
      | true =>
        simp only [ht, if_true]
        exact FS_refl _ a b
      | false =>
        simp only [ht, Bool.false_eq_true, if_false]
        have h := (abMinLoop_fs g hfmax s a (g.actions s) ⊤ b hab
          (lt_of_lt_of_le hab le_top)).2
        rw [min_eq_left le_top, min_eq_right le_top] at h
        exact h
    · show FS
        (if g.terminal_test s then g.utility s pid
          else abMaxLoop g (abMinMax g pid ev d).1 s (g.actions s) ⊥ a b)
        (if g.terminal_test s then g.utility s pid
          else mmMaxFold g (minimaxPair g pid ev d).1 s (g.actions s)) a b
      cases ht : g.terminal_test s with
      | true =>
        simp only [ht, if_true]
        exact FS_refl _ a b
      | false =>
        simp only [ht, Bool.false_eq_true, if_false]
        have h := (abMaxLoop_fs g hfmin s b (g.actions s) ⊥ a hab
          (lt_of_le_of_lt bot_le hab)).2
        rw [max_eq_left bot_le, max_eq_right bot_le] at h
        exact h

theorem abRootLoop_mem {σ α : Type} (g : Game σ α)
    (f : σ → Score → Score → Score) (s : σ) (L : List α) :
    ∀ (as : List α) (alpha beta bs : Score) (bm : α) (sc : List Score),
      bm ∈ L → (∀ x ∈ as, x ∈ L) →
      (abRootLoop g f s as alpha beta bs bm sc).1 ∈ L := by
  intro as
  induction as with
  | nil =>
    intro alpha beta bs bm sc hbm _
    exact hbm
  | cons a rest ih =>
    intro alpha beta bs bm sc hbm hsub
    simp only [abRootLoop]
    split_ifs with h
    · exact ih _ _ _ _ _ (hsub a (by simp)) (fun x hx => hsub x (by simp [hx]))
    · exact ih _ _ _ _ _ hbm (fun x hx => hsub x (by simp [hx]))

theorem abRootLoop_scores {σ α : Type} (g : Game σ α)
    (f : σ → Score → Score → Score) (s : σ) :
    ∀ (as : List α) (alpha bs : Score) (bm : α) (sc : List Score),
      (abRootLoop g f s as alpha ⊤ bs bm sc).2 =
        sc ++ rootValuesGo g f s as alpha := by
  intro as
  induction as with
  | nil =>
    intro alpha bs bm sc
    simp [abRootLoop, rootValuesGo]
  | cons a rest ih =>
    intro alpha bs bm sc
    simp only [abRootLoop, rootValuesGo]
    split_ifs with h
    · rw [ih]
      simp
    · rw [ih]
      simp

/-- C2: for every state and depth, the value of the pruning recursion run on
the full window `(-inf, inf)` coincides, in both the maximizing and the
minimizing layer, with the value of the full non-pruning minimax of the
same depth, with the same terminal and depth-cutoff rules and the same
evaluator. -/
theorem alphabeta_equals_minimax {σ α : Type} (g : Game σ α) (pid : Fin 2)
    (ev : σ → Score) (s : σ) (d : Nat) :
    ab_max_value g pid ev s ⊥ ⊤ d = minimax_max g pid ev s d ∧
    ab_min_value g pid ev s ⊥ ⊤ d = minimax_min g pid ev s d :=
  ⟨FS_eq (ab_fs g pid ev d s ⊥ ⊤ bot_lt_top).2,
   FS_eq (ab_fs g pid ev d s ⊥ ⊤ bot_lt_top).1⟩

/-- C6: in both recursive layers, a terminal state returns the state's
utility evaluated for the agent's own fixed player id `pid` — the same id
in the minimizing layer as in the maximizing layer — and the terminal
check precedes the depth-cutoff check (the equation holds at every depth,
including depth 0, for every evaluator `ev`). -/
theorem ab_layers_terminal_utility {σ α : Type} (g : Game σ α) (pid : Fin 2)
    (ev : σ → Score) (s : σ) (alpha beta : Score) (depth : Nat)
    (h : g.terminal_test s = true) :
    ab_min_value g pid ev s alpha beta depth = g.utility s pid ∧
    ab_max_value g pid ev s alpha beta depth = g.utility s pid := by
  cases depth with
  | zero =>
    constructor
    · show (if g.terminal_test s then g.utility s pid else ev s) = g.utility s pid
      rw [if_pos h]
    · show (if g.terminal_test s then g.utility s pid else ev s) = g.utility s pid
      rw [if_pos h]
  | succ d =>
    constructor
    · show (if g.terminal_test s then g.utility s pid
        else abMinLoop g (abMinMax g pid ev d).2 s (g.actions s) ⊤ alpha beta)
          = g.utility s pid
      rw [if_pos h]
    · show (if g.terminal_test s then g.utility s pid
        else abMaxLoop g (abMinMax g pid ev d).1 s (g.actions s) ⊥ alpha beta)
          = g.utility s pid
      rw [if_pos h]

/-- Witness for `ab_layers_terminal_utility`: the terminal state `9` of the
toy game at depth 0, where a depth-first cutoff would have returned the
evaluator's score instead. -/
theorem ab_layers_terminal_utility_witness :
    ab_min_value toyG 0 toyEv 9 ⊥ ⊤ 0 = toyG.utility 9 0 ∧
    ab_max_value toyG 0 toyEv 9 ⊥ ⊤ 0 = toyG.utility 9 0 :=
  ab_layers_terminal_utility toyG 0 toyEv 9 ⊥ ⊤ 0 (by decide)

/-- C7: on a state with exactly one legal action the root search returns
that action, at every depth bound of at least 1 (the random fallback draw
`fb` is itself the unique legal action). -/
theorem alphabeta_single_action {σ α : Type} (g : Game σ α) (pid : Fin 2)
    (ev : σ → Score) (s : σ) (a fb : α) (depth : Nat)
    (hact : g.actions s = [a]) (hfb : fb ∈ g.actions s) (hd : 1 ≤ depth) :
    alphabeta g pid ev s depth fb = a := by
  have hfa : fb = a := by
    rw [hact] at hfb
    simpa using hfb
  subst hfa
  unfold alphabeta
  rw [hact]
  simp only [abRootLoop]
  split_ifs <;> rfl

/-- Witness for `alphabeta_single_action`: state `0` of the toy game has the
single action `1`, and the search at depth 1 returns it. -/
theorem alphabeta_single_action_witness : alphabeta toyG 0 toyEv 0 1 1 = 1 :=
  alphabeta_single_action toyG 0 toyEv 0 1 1 1 (by decide) (by decide) (by decide)

/-- C10: whatever the depth, the action returned by `alphabeta` is a member
of the legal actions of the root state, provided the random initial
fallback draw is itself legal. -/
theorem alphabeta_mem_actions {σ α : Type} (g : Game σ α) (pid : Fin 2)
    (ev : σ → Score) (s : σ) (depth : Nat) (fb : α)
    (hfb : fb ∈ g.actions s) :
    alphabeta g pid ev s depth fb ∈ g.actions s := by
  unfold alphabeta
  exact abRootLoop_mem g _ s (g.actions s) (g.actions s) ⊥ ⊤ ⊥ fb [] hfb
    (fun x hx => hx)

/-- Witness for `alphabeta_mem_actions`: the depth-4 search from state `0`
of the toy game returns a legal action. -/
theorem alphabeta_mem_actions_witness :
    alphabeta toyG 0 toyEv 0 4 1 ∈ toyG.actions 0 :=
  alphabeta_mem_actions toyG 0 toyEv 0 4 1 (by decide)

/-- C8: `get_action` returns the random legal draw `r` when fewer than two
plies have been played (no search result is consulted), and otherwise the
result of the alpha-beta search at the fixed depth bound 4; in both cases
the reported action is legal. -/
theorem get_action_policy {σ α : Type} (g : Game σ α) (pid : Fin 2)
    (ev : σ → Score) (s : σ) (r fb : α)
    (hr : r ∈ g.actions s) (hfb : fb ∈ g.actions s) :
    get_action g pid ev s r fb =
      (if g.ply_count s < 2 then r else alphabeta g pid ev s 4 fb) ∧
    get_action g pid ev s r fb ∈ g.actions s := by
  constructor
  · rfl
  · unfold get_action
    split_ifs with h
    · exact hr
    · unfold alphabeta
      exact abRootLoop_mem g _ s (g.actions s) (g.actions s) ⊥ ⊤ ⊥ fb [] hfb
        (fun x hx => hx)

/-- Witness for `get_action_policy`: state `0` of the toy game has
`ply_count 0 < 2`, so the random draw `1` is reported. -/
theorem get_action_policy_witness :
    get_action toyG 0 toyEv 0 1 1 =
      (if toyG.ply_count 0 < 2 then 1 else alphabeta toyG 0 toyEv 0 4 1) ∧
    get_action toyG 0 toyEv 0 1 1 ∈ toyG.actions 0 :=
  get_action_policy toyG 0 toyEv 0 1 1 (by decide) (by decide)

/-- C1 (amended): each value `v` computed in the root loop of `alphabeta`
is obtained by calling the minimizing layer on the child state with the
depth argument equal to `depth` itself — the bound is passed to the first
ply unchanged, the decrement happening only inside the recursive layers —
threading `alpha` through the loop. -/
theorem alphabeta_root_calls_min_at_full_depth {σ α : Type} (g : Game σ α)
    (pid : Fin 2) (ev : σ → Score) (s : σ) (depth : Nat) (fb : α) :
    rootScores g pid ev s depth fb = rootValuesCalledAt g pid ev s depth := by
  unfold rootScores rootValuesCalledAt
  rw [abRootLoop_scores]
  simp

/-- Counterexample to C1 as stated: at the toy game's root state `0`
(non-terminal, one legal action) with depth bound 1, the root value list
differs from the values the minimizing layer would produce at depth
`1 - 1`: the code searches the first ply at the undecremented bound. -/
theorem alphabeta_root_depth_counterexample :
    toyG.terminal_test 0 = false ∧ toyG.actions 0 = [1] ∧
    rootScores toyG 0 toyEv 0 1 1 ≠ rootValuesCalledAt toyG 0 toyEv 0 (1 - 1) := by
  refine ⟨by decide, by decide, by decide⟩

/-- Concrete evaluator state for the centrality counterexample: the two
players sit at locations 0 and 1 and have equally many (zero) liberties. -/
def cexCentralState : EvalState :=
  ⟨fun p => if p = 0 then 0 else 1, fun _ => [], 0⟩

/-- Concrete `score_build` states for the monotonicity theorem: equal
liberty lists, boards with 91 and 71 open markers. -/
def buildS1 : EvalState := ⟨fun _ => 0, fun _ => [7], repunit 91⟩

/-- Second state of the pair, with the smaller fraction. -/
def buildS2 : EvalState := ⟨fun _ => 0, fun _ => [7], repunit 71⟩

/-- States straddling the `0.5` threshold for the counterexample. -/
def buildCexS1 : EvalState := ⟨fun _ => 0, fun _ => [7], repunit 50⟩

/-- Second state of the counterexample pair, below the `0.5` threshold. -/
def buildCexS2 : EvalState := ⟨fun _ => 0, fun _ => [7], 2⟩

theorem score_build_eq (s : EvalState) (p : Fin 2) :
    score_build s p =
      (libCount s p : ℚ) - buildMultiplier (openFraction s) * (libCount s (1 - p) : ℚ) := by
  simp only [score_build, buildMultiplier, openFraction, libCount]

/-- C9: the Basic evaluator is zero-sum antisymmetric — evaluating the same
state from the other player's id negates the score. -/
theorem score_antisymm (s : EvalState) (p : Fin 2) :
    score s p = - score s (1 - p) := by
  have h : (1 : Fin 2) - (1 - p) = p := by
    revert p
    decide
  simp only [score, h]
  ring

/-- C4: the Build evaluator returns `ownLiberties - multiplier * oppLiberties`
with the multiplier determined by the open fraction through the thresholds
`>0.9 ↦ 1.50`, `>0.7 ↦ 1.75`, `>0.5 ↦ 2.00`, otherwise `1`. -/
theorem score_build_formula (s : EvalState) (p : Fin 2) :
    score_build s p =
      (libCount s p : ℚ) - buildMultiplier (openFraction s) * (libCount s (1 - p) : ℚ) :=
  score_build_eq s p

/-- C5 (amended): for fixed liberty counts with a positive opponent count,
the Build score is non-increasing as the open fraction decreases while
remaining above `0.5` (this covers crossing the `0.9` and `0.7` thresholds
from above); at the `0.5` threshold the multiplier resets to 1 and the
score increases instead (see the counterexample). -/
theorem score_build_monotone_above_half (s1 s2 : EvalState) (p : Fin 2)
    (hown : libCount s1 p = libCount s2 p)
    (hopp : libCount s1 (1 - p) = libCount s2 (1 - p))
    (hpos : 0 < libCount s1 (1 - p))
    (h2 : 1 / 2 < openFraction s2)
    (h21 : openFraction s2 ≤ openFraction s1) :
    score_build s2 p ≤ score_build s1 p := by
  have hmul : buildMultiplier (openFraction s1) ≤ buildMultiplier (openFraction s2) := by
    have e9 : (0.9 : ℚ) = 9 / 10 := by norm_num
    have e7 : (0.7 : ℚ) = 7 / 10 := by norm_num
    have e5 : (0.5 : ℚ) = 1 / 2 := by norm_num
    have e15 : (1.50 : ℚ) = 3 / 2 := by norm_num
    have e175 : (1.75 : ℚ) = 7 / 4 := by norm_num
    unfold buildMultiplier
    rw [e9, e7, e5, e15, e175]
    split_ifs <;> linarith
  rw [score_build_eq, score_build_eq, ← hown, ← hopp]
  have hopp0 : (0 : ℚ) ≤ (libCount s1 (1 - p) : ℚ) := Nat.cast_nonneg _
  exact sub_le_sub_left (mul_le_mul_of_nonneg_right hmul hopp0) _

/-- Witness for `score_build_monotone_above_half`: fractions `91/99` and
`71/99` (multipliers 1.50 and 1.75) with one own and one opponent liberty. -/
theorem score_build_monotone_above_half_witness :
    score_build buildS2 0 ≤ score_build buildS1 0 :=
  score_build_monotone_above_half buildS1 buildS2 0 rfl rfl (by decide)
    (by norm_num [openFraction, buildS2, countOnes_repunit])
    (by norm_num [openFraction, buildS1, buildS2, countOnes_repunit])

/-- Counterexample to C5 as stated: crossing the `0.5` threshold from above
(fractions `50/99` and `0/99`) with one liberty each, the Build score
increases from `-1` to `0`, so it is not non-increasing across that
threshold. -/
theorem score_build_monotone_counterexample :
    1 / 2 < openFraction buildCexS1 ∧ openFraction buildCexS2 ≤ 1 / 2 ∧
    libCount buildCexS1 0 = libCount buildCexS2 0 ∧
    libCount buildCexS1 1 = libCount buildCexS2 1 ∧
    0 < libCount buildCexS1 1 ∧
    ¬ score_build buildCexS2 0 ≤ score_build buildCexS1 0 := by
  have h2 : countOnes 2 = 0 := by simp [countOnes]
  have hof1 : openFraction buildCexS1 = 50 / 99 := by
    norm_num [openFraction, buildCexS1, countOnes_repunit]
  have hof2 : openFraction buildCexS2 = 0 := by
    norm_num [openFraction, buildCexS2, h2]
  refine ⟨?_, ?_, rfl, rfl, by decide, ?_⟩
  · rw [hof1]
    norm_num
  · rw [hof2]
    norm_num
  · have hm1 : buildMultiplier (openFraction buildCexS1) = 2 := by
      rw [hof1]
      unfold buildMultiplier
      norm_num
    have hm2 : buildMultiplier (openFraction buildCexS2) = 1 := by
      rw [hof2]
      unfold buildMultiplier
      norm_num
    rw [score_build_eq, score_build_eq, hm1, hm2]
    norm_num [libCount, buildCexS1, buildCexS2]

/-- C3 (amended): with equal liberty counts the center-biased evaluator
returns `(ownCentrality - oppCentrality) / 10` where the centrality of a
location uses the center `(6, 5) = (ceil(11/2), ceil(9/2))` and per-axis
reference values `(11-6)^2`, `(9-5)^2`; with unequal counts it returns the
Basic difference. -/
theorem score_central_formula (s : EvalState) (p : Fin 2) :
    score_central s p =
      if libCount s p = libCount s (1 - p) then
        (codeCentrality (s.locs p) - codeCentrality (s.locs (1 - p))) / 10
      else (libCount s p : ℚ) - (libCount s (1 - p) : ℚ) := by
  have hcx : ((⌈(11 : ℚ) / 2⌉ : ℤ) : ℚ) = 6 := by
    have h : (⌈(11 : ℚ) / 2⌉ : ℤ) = 6 := by
      rw [Int.ceil_eq_iff]
      norm_num
    rw [h]
    norm_num
  have hcy : ((⌈(9 : ℚ) / 2⌉ : ℤ) : ℚ) = 5 := by
    have h : (⌈(9 : ℚ) / 2⌉ : ℤ) = 5 := by
      rw [Int.ceil_eq_iff]
      norm_num
    rw [h]
    norm_num
  simp only [score_central, codeCentrality, libCount, hcx, hcy]
  by_cases h : (s.liberties (s.locs p)).length = (s.liberties (s.locs (1 - p))).length
  · rw [if_neg (not_not_intro h), if_pos h]
  · rw [if_pos h, if_neg h]

/-- Counterexample to C3 as stated: players at locations 0 and 1 with equal
liberty counts; the code's tiebreak value is `-11/10` while the claimed
`5.5`/`4.5`-based formula gives `-1`. -/
theorem score_central_claim_counterexample :
    libCount cexCentralState 0 = libCount cexCentralState 1 ∧
    score_central cexCentralState 0 ≠
      (specCentrality (cexCentralState.locs 0)
        - specCentrality (cexCentralState.locs 1)) / 10 := by
  constructor
  · rfl
  · have hcx : ((⌈(11 : ℚ) / 2⌉ : ℤ) : ℚ) = 6 := by
      have h : (⌈(11 : ℚ) / 2⌉ : ℤ) = 6 := by
        rw [Int.ceil_eq_iff]
        norm_num
      rw [h]
      norm_num
    have hcy : ((⌈(9 : ℚ) / 2⌉ : ℤ) : ℚ) = 5 := by
      have h : (⌈(9 : ℚ) / 2⌉ : ℤ) = 5 := by
        rw [Int.ceil_eq_iff]
        norm_num
      rw [h]
      norm_num
    simp only [score_central, specCentrality, cexCentralState, hcx, hcy]
    norm_num
